import Mathlib

/-!
Verification of the Apisix-Allinssl certificate reconciliation plugin.

The development shallowly embeds the Go source:
* `compareSliceRelation` (slice relation classifier, 0 = disjoint,
  1 = partial, 2 = exact) together with its inner matching loop;
* the reconciliation scan of `Upload_bind` (reuse-candidate tracking and
  candidate deletion set);
* the decision/effect part of `Upload_bind` (upload, sequential deletion
  with rollback) over an explicit gateway oracle, recording the remote
  calls performed;
* `GetSHA256` (fingerprinting) parameterised by the external PEM / X.509 /
  SHA-256 libraries, with a concrete model of lowercase hex encoding;
* `DeleteCertFromApisix` over a model of the gateway JSON response,
  including Go's `path.Base`.
-/

namespace Allinssl

/-! ## Relation classifier (`compareSliceRelation`) -/

/-- Inner loop of `compareSliceRelation`:
`for _, s := range b { if cnt[s] > 0 { overlap++; cnt[s]-- } }`.
The Go count map is modelled as a function `String → Nat`; the loop
threads the decremented map together with the `overlap` counter. -/
def matchLoop : List String → (String → Nat) → Nat → (String → Nat) × Nat
  | [], cnt, overlap => (cnt, overlap)
  | s :: rest, cnt, overlap =>
    if 0 < cnt s then
      matchLoop rest (fun t => if t = s then cnt s - 1 else cnt t) (overlap + 1)
    else
      matchLoop rest cnt overlap

/-- `compareSliceRelation(a, b)` from the source: returns `0` when either
slice is empty; otherwise runs the greedy matching loop over `b` against
the multiplicity map of `a` (the map built by the first Go loop is exactly
`fun s => a.count s`), then returns `2` when the lengths agree and every
count in the map is exhausted (the Go code ranges over the map's entries,
i.e. the elements of `a`), `1` when at least one element matched, and `0`
otherwise.  The `cntCopy` map in the source is written but never read, so
it has no observable effect and is omitted. -/
def compareSliceRelation (a b : List String) : Nat :=
  if a.length = 0 || b.length = 0 then 0
  else
    let res := matchLoop b (fun s => a.count s) 0
    if a.length == b.length && a.all (fun s => res.1 s == 0) then 2
    else if 0 < res.2 then 1
    else 0

/-! ## Data model of the remote listing

`listCertFromApisix` yields, for each entry, a JSON map; `Upload_bind`
reads `cert["value"]` (skipping entries where it is not a map), then
`value["desc"]` (defaulting to `""` when missing or not a string),
`value["id"]` (defaulting to `""`), and `value["snis"]` (an array whose
elements must all be strings; a missing / non-array field or a non-string
element makes the slice invalid).  Only these shapes are observable, so a
listed entry is modelled by optional typed fields, with a marker for a
non-string array element. -/

/-- An element of the `snis` JSON array: a string, or any non-string value. -/
inductive SnisElem where
  | str (s : String)
  | nonStr
deriving DecidableEq

/-- The `value` map of a listed certificate entry, restricted to the
fields `Upload_bind` reads.  `none` models a missing field or one of the
wrong dynamic type. -/
structure RemoteValue where
  desc : Option String
  id : Option String
  snis : Option (List SnisElem)
deriving DecidableEq

/-- A listed certificate entry; `value = none` models an entry whose
`value` field is missing or not a map (skipped by the scan). -/
structure RemoteCert where
  value : Option RemoteValue
deriving DecidableEq

/-- The element loop over `snisAny`: collect the strings in order, fail
(`valid = false`) at the first non-string element. -/
def extractSnisElems : List SnisElem → Option (List String)
  | [] => some []
  | SnisElem.str s :: rest => (extractSnisElems rest).map (fun l => s :: l)
  | SnisElem.nonStr :: _ => none

/-- `snisAny, _ := value["snis"].([]any)`: a missing or non-array field
gives `nil`, hence `valid = false` (modelled as `none`); otherwise the
element loop runs. -/
def extractSnisList : Option (List SnisElem) → Option (List String)
  | none => none
  | some l => extractSnisElems l

/-- `desc, _ := value["desc"].(string)` (empty string on failure),
read through the entry; a skipped entry never has its fields read, the
default only keeps the function total. -/
def objDesc (c : RemoteCert) : String :=
  match c.value with
  | none => ""
  | some v => v.desc.getD ""

/-- `if v, ok := value["id"].(string); ok { id = v }` — `id` stays `""`
when the field is missing or not a string. -/
def objId (c : RemoteCert) : String :=
  match c.value with
  | none => ""
  | some v => v.id.getD ""

/-- The `relation` computed for an entry: `0` unless the `snis` slice is
valid, in which case `compareSliceRelation(snis, domain)`. -/
def relationOf (c : RemoteCert) (domain : List String) : Nat :=
  match c.value with
  | none => 0
  | some v =>
    match extractSnisList v.snis with
    | some snis => compareSliceRelation snis domain
    | none => 0

/-- The deletion condition of the scan, in the source's boolean form:
`id != "" && ((desc == note && !snisMatch) || (snisPartial && desc != note))`. -/
def qualifiesDelete (note : String) (domain : List String) (c : RemoteCert) : Bool :=
  objId c != "" && ((objDesc c == note && !(relationOf c domain == 2)) ||
    (relationOf c domain == 1 && objDesc c != note))

/-- The reuse-candidate condition of the scan: `snisMatch && desc == note`. -/
def isExactMatch (note : String) (domain : List String) (c : RemoteCert) : Bool :=
  relationOf c domain == 2 && (objDesc c == note)

/-! ## The reconciliation scan of `Upload_bind` (source lines 71–126) -/

/-- The scan's mutable state: `deleteCertKeyList` and `certKey`.  The Go
`deleteMap` always holds exactly the members of `deleteCertKeyList`, so
the dedup test is modelled by a membership test on the list. -/
structure ScanState where
  deleteList : List String
  certKey : String
deriving DecidableEq

/-- One iteration of the scan loop over a listed entry: skip entries
without a `value` map; otherwise read `desc`, `id` and the relation, add
`id` to the deletion list (deduplicated) when the deletion condition
holds, and record `id` as the reuse candidate on `snisMatch && desc ==
note` (the loop then `continue`s, so later iterations may overwrite). -/
def scanCert (note : String) (domain : List String) (st : ScanState) (c : RemoteCert) :
    ScanState :=
  match c.value with
  | none => st
  | some _ =>
    let desc := objDesc c
    let id := objId c
    let relation := relationOf c domain
    let snisMatch := relation == 2
    let snisPartial := relation == 1
    let st1 :=
      if id != "" && ((desc == note && !snisMatch) || (snisPartial && desc != note)) then
        if st.deleteList.contains id then st
        else { st with deleteList := st.deleteList ++ [id] }
      else st
    if snisMatch && (desc == note) then { st1 with certKey := id } else st1

/-- The scan loop over the listing, in iteration order. -/
def scanLoop (note : String) (domain : List String) : ScanState → List RemoteCert → ScanState
  | st, [] => st
  | st, c :: rest => scanLoop note domain (scanCert note domain st c) rest

/-- The whole scan: starts from an empty deletion list and `certKey = ""`. -/
def scan (note : String) (domain : List String) (certServer : List RemoteCert) : ScanState :=
  scanLoop note domain ⟨[], ""⟩ certServer

/-! ## Decision and effects of `Upload_bind` (source lines 24–161)

The remote gateway is an oracle: the outcome of the list call, of the
create call (`uploadCertToApisix`, whose result is the new key — possibly
empty — or an error), and of each delete call (`DeleteCertFromApisix`,
keyed by the id being deleted).  Every remote call performed is recorded
as an effect, in order. -/

/-- A remote call performed by `Upload_bind`. -/
inductive Effect where
  | list
  | create
  | delete (id : String)
deriving DecidableEq

/-- The `*Response` value returned on success; the `Result` map of the
source holds a single `"message"` entry, modelled as `resultMessage`. -/
structure UploadResponse where
  status : String
  message : String
  resultMessage : String
deriving DecidableEq

/-- A dynamic parameter value (`any` in the source): a string, a list, or
anything else. -/
inductive PVal where
  | str (s : String)
  | list (l : List PVal)
  | other

/-- Lookup in the parameter bundle (`cfg[key]`); the bundle is modelled
as an association list with the leftmost binding visible. -/
def lookupParam : List (String × PVal) → String → Option PVal
  | [], _ => none
  | (k, v) :: rest, key => if k = key then some v else lookupParam rest key

/-- `s, ok := cfg[k].(string); !ok || s == ""` — returns the string only
when the field is present, a string, and non-empty. -/
def reqString (cfg : List (String × PVal)) (k : String) : Option String :=
  match lookupParam cfg k with
  | some (PVal.str s) => if s = "" then none else some s
  | _ => none

/-- The element loop over `domains`: every element must be a string. -/
def asStringList : List PVal → Option (List String)
  | [] => some []
  | PVal.str s :: rest => (asStringList rest).map (fun l => s :: l)
  | _ :: _ => none

/-- The gateway oracle: outcomes of the remote calls `Upload_bind` may
perform.  `sha` is the outcome of `GetSHA256` on the cert parameter. -/
structure Gateway where
  sha : String → Except String String
  listResult : Except String (List RemoteCert)
  createResult : Except String String
  deleteResult : String → Except String Bool

/-- The deletion loop of the upload branch (source lines 133–147): delete
each candidate in sequence; on the first failure, log it, then attempt to
delete the just-created key.  The rollback call `_, err :=
a.DeleteCertFromApisix(certKey)` (line 140) declares a NEW `err` with
`:=`, shadowing the original deletion failure inside the enclosing
if-block, so the `return ... fmt.Errorf("failed to delete old cert %s:
%w", delCertKey, err)` wraps the ROLLBACK call's outcome: a failing
rollback's error is what gets wrapped, and a successful rollback wraps a
nil error, which Go's `%w` verb renders as `%!w(<nil>)` — the original
deletion failure is only logged, never returned.  On full success,
return the "绑定成功" response. -/
def deleteLoop (g : Gateway) (createdKey : String) :
    List String → List Effect → Except String UploadResponse × List Effect
  | [], effs =>
    (Except.ok ⟨"success", "Certificate uploaded and bound successfully", "绑定成功"⟩, effs)
  | delCertKey :: rest, effs =>
    match g.deleteResult delCertKey with
    | Except.ok _ => deleteLoop g createdKey rest (effs ++ [Effect.delete delCertKey])
    | Except.error _ =>
      match g.deleteResult createdKey with
      | Except.ok _ =>
        (Except.error ("failed to delete old cert " ++ delCertKey ++ ": %!w(<nil>)"),
         effs ++ [Effect.delete delCertKey, Effect.delete createdKey])
      | Except.error e2 =>
        (Except.error ("failed to delete old cert " ++ delCertKey ++ ": " ++ e2),
         effs ++ [Effect.delete delCertKey, Effect.delete createdKey])

/-- The part of `Upload_bind` after parameter validation (source lines
57–160): fingerprint the cert, list the store, run the scan, then either
reuse (`certKey != ""`, no further remote call) or upload and clean up
via `deleteLoop`. -/
def reconcileCore (g : Gateway) (certStr : String) (domain : List String) :
    Except String UploadResponse × List Effect :=
  match g.sha certStr with
  | Except.error e => (Except.error ("failed to get SHA256 of cert: " ++ e), [])
  | Except.ok fp =>
    let note := "allinssl-" ++ fp
    match g.listResult with
    | Except.error e =>
      (Except.error ("failed to list certs from Cloud: " ++ e), [Effect.list])
    | Except.ok certServer =>
      let st := scan note domain certServer
      if st.certKey = "" then
        match g.createResult with
        | Except.error e =>
          (Except.error ("failed to upload to Cloud: " ++ e), [Effect.list, Effect.create])
        | Except.ok certKey =>
          if certKey = "" then
            (Except.error "failed to upload to Cloud: ", [Effect.list, Effect.create])
          else
            deleteLoop g certKey st.deleteList [Effect.list, Effect.create]
      else
        (Except.ok ⟨"success", "Certificate uploaded and bound successfully",
          "已存在绑定"⟩, [Effect.list])

/-- `Upload_bind`: parameter validation (in source order, each failed
check returning its own error before any remote call), then the
reconciliation core.  Returns the response or error together with the
remote calls performed. -/
def Upload_bind (g : Gateway) (cfg? : Option (List (String × PVal))) :
    Except String UploadResponse × List Effect :=
  match cfg? with
  | none => (Except.error "config cannot be nil", [])
  | some cfg =>
    match reqString cfg "cert" with
    | none => (Except.error "cert is required and must be a string", [])
    | some certStr =>
      match reqString cfg "key" with
      | none => (Except.error "key is required and must be a string", [])
      | some _keyStr =>
        match reqString cfg "admin_key" with
        | none => (Except.error "admin_key is required and must be a string", [])
        | some _adminKey =>
          match reqString cfg "server_address" with
          | none => (Except.error "server_address is required and must be a string", [])
          | some _serverAddress =>
            match lookupParam cfg "domain" with
            | some (PVal.list domains) =>
              if domains.length = 0 then
                (Except.error "domain is required and must be a list", [])
              else
                match asStringList domains with
                | none => (Except.error "element is not a string", [])
                | some domain => reconcileCore g certStr domain
            | _ => (Except.error "domain is required and must be a list", [])

/-- The caller contract of §6: all four string fields present, strings and
non-empty, and `domain` present, a list, non-empty and all-strings. -/
def goodParams : Option (List (String × PVal)) → Prop
  | none => False
  | some cfg =>
    (∃ s, lookupParam cfg "cert" = some (PVal.str s) ∧ s ≠ "") ∧
    (∃ s, lookupParam cfg "key" = some (PVal.str s) ∧ s ≠ "") ∧
    (∃ s, lookupParam cfg "admin_key" = some (PVal.str s) ∧ s ≠ "") ∧
    (∃ s, lookupParam cfg "server_address" = some (PVal.str s) ∧ s ≠ "") ∧
    (∃ l, lookupParam cfg "domain" = some (PVal.list l) ∧ l ≠ [] ∧
      ∀ v ∈ l, ∃ s, v = PVal.str s)

/-! ## Concrete fixtures used for evaluations -/

/-- A parameter bundle satisfying the caller contract, with
`domain = ["a.com"]`. -/
def goodCfg : List (String × PVal) :=
  [("cert", PVal.str "C"), ("key", PVal.str "K"), ("admin_key", PVal.str "A"),
   ("server_address", PVal.str "S"), ("domain", PVal.list [PVal.str "a.com"])]

/-- A listed object with `desc = "allinssl-h"` and `snis = ["a.com"]`
(an exact match for `goodCfg` when the fingerprint is `"h"`), with the
given optional id. -/
def exactObj (id : Option String) : RemoteCert :=
  ⟨some ⟨some "allinssl-h", id, some [SnisElem.str "a.com"]⟩⟩

/-- A listed object with `desc = "allinssl-h"` but `snis = ["b"]`
(same-note, relation Disjoint — a stale object). -/
def staleObj (id : String) : RemoteCert :=
  ⟨some ⟨some "allinssl-h", some id, some [SnisElem.str "b"]⟩⟩

/-- A gateway whose listing holds an exact match with id `"x"` followed
by an exact match with a missing id. -/
def gatewayReuse : Gateway :=
  ⟨fun _ => Except.ok "h", Except.ok [exactObj (some "x"), exactObj none],
   Except.ok "new", fun _ => Except.ok true⟩

/-- A gateway whose listing holds a single exact match with id `"x"`. -/
def gatewayReuseOk : Gateway :=
  ⟨fun _ => Except.ok "h", Except.ok [exactObj (some "x")],
   Except.ok "new", fun _ => Except.ok true⟩

/-- A gateway with two stale same-note objects, where deleting `"old1"`
succeeds, deleting `"old2"` fails, and the rollback deletion of the
created key also fails. -/
def gatewayCleanupFail : Gateway :=
  ⟨fun _ => Except.ok "h", Except.ok [staleObj "old1", staleObj "old2"],
   Except.ok "new",
   fun k => if k = "old1" then Except.ok true
            else if k = "old2" then Except.error "boom"
            else Except.error "rollback-fail"⟩

/-- A gateway with one stale same-note object whose deletion fails while
the rollback deletion of the created key succeeds. -/
def gatewayRollbackOk : Gateway :=
  ⟨fun _ => Except.ok "h", Except.ok [staleObj "old2"], Except.ok "new",
   fun k => if k = "old2" then Except.error "boom" else Except.ok true⟩

/-! ## Fingerprinting (`GetSHA256`, main.go) -/

/-- A decoded PEM block (`pem.Decode`): only its `Bytes` field is used. -/
structure PemBlock where
  bytes : List Nat
deriving DecidableEq

/-- A parsed X.509 certificate (`x509.ParseCertificate`): only its `Raw`
DER bytes are used. -/
structure X509Cert where
  raw : List Nat
deriving DecidableEq

/-- One lowercase hex digit, as produced by Go's `encoding/hex` table
`"0123456789abcdef"`. -/
def hexDigit (n : Nat) : Char :=
  if n < 10 then Char.ofNat (48 + n) else Char.ofNat (87 + n)

/-- `hex.EncodeToString` of a byte: high nibble then low nibble. -/
def hexEncodeByte (b : Nat) : List Char :=
  [hexDigit (b / 16 % 16), hexDigit (b % 16)]

/-- `hex.EncodeToString`: two lowercase hex digits per byte, in order. -/
def hexEncode (bs : List Nat) : String :=
  String.mk ((bs.map hexEncodeByte).flatten)

/-- The character set of Go's lowercase hex table. -/
def lowerHexChars : List Char := "0123456789abcdef".data

/-- `GetSHA256` from main.go, parameterised by the external libraries:
PEM decoding (`none` = no valid PEM block), X.509 parsing, and the
SHA-256 digest function. -/
def GetSHA256 (pemDecode : String → Option PemBlock)
    (parseCertificate : List Nat → Except String X509Cert)
    (sha256Sum : List Nat → List Nat) (certStr : String) : Except String String :=
  match pemDecode certStr with
  | none => Except.error "无法解析证书 PEM"
  | some block =>
    match parseCertificate block.bytes with
    | Except.error e => Except.error ("解析证书失败: " ++ e)
    | Except.ok cert => Except.ok (hexEncode (sha256Sum cert.raw))

/-! ## `DeleteCertFromApisix` (source lines 193–212) -/

/-- A JSON field of the deletion response: present as a string, or
present with any other type. -/
inductive JField where
  | jstr (s : String)
  | jother
deriving DecidableEq

/-- The deletion response fields that `DeleteCertFromApisix` reads. -/
structure DeleteResp where
  deleted : Option JField
  key : Option JField
deriving DecidableEq

/-- Go's `path.Base`: `"."` for the empty path, strip trailing slashes,
keep the last segment, `"/"` when the path was all slashes. -/
def pathBase (p : String) : String :=
  if p = "" then "."
  else
    let r := p.data.reverse.dropWhile (fun c => c = '/')
    if r = [] then "/"
    else String.mk (r.takeWhile (fun c => c ≠ '/')).reverse

/-- `DeleteCertFromApisix`, over the transport outcome of the DELETE
call: require a string `deleted` field, a string `key` field, and that
the last path segment of `key` equals the requested id. -/
def DeleteCertFromApisix (transport : Except String DeleteResp) (certKey : String) :
    Except String Bool :=
  match transport with
  | Except.error e => Except.error ("failed to call Apisix API: " ++ e)
  | Except.ok res =>
    match res.deleted with
    | some (JField.jstr _) =>
      match res.key with
      | some (JField.jstr key) =>
        if pathBase key = certKey then Except.ok true
        else Except.error ("deleted key mismatch: expected " ++ certKey ++ ", got " ++ key)
      | _ => Except.error "invalid response format: key not found"
    | _ => Except.error "apisix api error"

theorem matchLoop_fst (b : List String) : ∀ (cnt : String → Nat) (ov : Nat) (s : String),
    (matchLoop b cnt ov).1 s = cnt s - b.count s := by
  induction b with
  | nil => intro cnt ov s; simp [matchLoop]
  | cons x rest ih =>
    intro cnt ov s
    simp only [matchLoop]
    by_cases hx : 0 < cnt x
    · rw [if_pos hx, ih]
      by_cases hsx : s = x
      · subst hsx
        simp only [if_pos rfl, List.count_cons_self, eq_self_iff_true, if_true]
        omega
      · simp only [if_neg hsx, List.count_cons_of_ne hsx]
    · rw [if_neg hx, ih]
      by_cases hsx : s = x
      · subst hsx
        simp only [List.count_cons_self]
        omega
      · simp only [List.count_cons_of_ne hsx]

theorem matchLoop_ov_le (b : List String) : ∀ (cnt : String → Nat) (ov : Nat),
    ov ≤ (matchLoop b cnt ov).2 := by
  induction b with
  | nil => intro cnt ov; simp [matchLoop]
  | cons x rest ih =>
    intro cnt ov
    simp only [matchLoop]
    by_cases hx : 0 < cnt x
    · rw [if_pos hx]
      exact Nat.le_trans (Nat.le_succ ov) (ih _ _)
    · rw [if_neg hx]
      exact ih _ _

theorem matchLoop_ov_pos (b : List String) : ∀ (cnt : String → Nat) (ov : Nat),
    (0 < (matchLoop b cnt ov).2 ↔ 0 < ov ∨ ∃ s ∈ b, 0 < cnt s) := by
  induction b with
  | nil => intro cnt ov; simp [matchLoop]
  | cons x rest ih =>
    intro cnt ov
    simp only [matchLoop]
    by_cases hx : 0 < cnt x
    · rw [if_pos hx]
      constructor
      · intro _
        exact Or.inr ⟨x, List.mem_cons_self x rest, hx⟩
      · intro _
        exact Nat.lt_of_lt_of_le (Nat.succ_pos ov) (matchLoop_ov_le _ _ _)
    · rw [if_neg hx, ih]
      constructor
      · rintro (h | ⟨s, hs, hcnt⟩)
        · exact Or.inl h
        · exact Or.inr ⟨s, List.mem_cons_of_mem x hs, hcnt⟩
      · rintro (h | ⟨s, hs, hcnt⟩)
        · exact Or.inl h
        · rcases List.mem_cons.mp hs with rfl | hs'
          · exact absurd hcnt hx
          · exact Or.inr ⟨s, hs', hcnt⟩

/-- The exact-match test computed by `compareSliceRelation` (equal lengths
and every count of `a` exhausted by the greedy matching) holds precisely
when the two lists are permutations of each other (equal as multisets). -/
theorem exact_iff_perm (a b : List String) :
    (a.length = b.length ∧ ∀ s ∈ a, a.count s - b.count s = 0) ↔ a.Perm b := by
  constructor
  · rintro ⟨hlen, hall⟩
    have hsub : a.Subperm b := by
      rw [List.subperm_ext_iff]
      intro x hx
      have := hall x hx
      omega
    exact hsub.perm_of_length_le (Nat.le_of_eq hlen.symm)
  · intro hperm
    refine ⟨hperm.length_eq, fun s _ => ?_⟩
    rw [hperm.count_eq]
    omega

/-- Full characterisation of `compareSliceRelation`: `0` when either list
is empty, otherwise `2` iff the lists are multiset-equal, `1` iff they
share an element but are not multiset-equal, and `0` otherwise. -/
theorem compareSliceRelation_eq (a b : List String) :
    compareSliceRelation a b =
      if a = [] ∨ b = [] then 0
      else if a.Perm b then 2
      else if ∃ s ∈ a, s ∈ b then 1
      else 0 := by
  unfold compareSliceRelation
  by_cases hemp : a = [] ∨ b = []
  · have : a.length = 0 || b.length = 0 := by
      rcases hemp with h | h <;> subst h <;> simp
    rw [if_pos this, if_pos hemp]
  · have ha : a ≠ [] := fun h => hemp (Or.inl h)
    have hb : b ≠ [] := fun h => hemp (Or.inr h)
    have : (a.length = 0 || b.length = 0) = false := by
      simp [List.length_eq_zero, ha, hb]
    rw [this, if_neg hemp]
    simp only [Bool.false_eq_true, if_false]
    have hexact : (a.length == b.length && a.all fun s =>
        (matchLoop b (fun s => a.count s) 0).1 s == 0) = true ↔ a.Perm b := by
      rw [← exact_iff_perm a b]
      simp only [Bool.and_eq_true, beq_iff_eq, List.all_eq_true]
      constructor
      · rintro ⟨h1, h2⟩
        refine ⟨h1, fun s hs => ?_⟩
        have := h2 s hs
        rwa [matchLoop_fst] at this
      · rintro ⟨h1, h2⟩
        refine ⟨h1, fun s hs => ?_⟩
        rw [matchLoop_fst]
        exact h2 s hs
    have hov : 0 < (matchLoop b (fun s => a.count s) 0).2 ↔ ∃ s ∈ a, s ∈ b := by
      rw [matchLoop_ov_pos]
      constructor
      · rintro (h | ⟨s, hs, hcnt⟩)
        · omega
        · exact ⟨s, List.count_pos_iff.mp hcnt, hs⟩
      · rintro ⟨s, hsa, hsb⟩
        exact Or.inr ⟨s, hsb, List.count_pos_iff.mpr hsa⟩
    by_cases hp : a.Perm b
    · rw [if_pos (hexact.mpr hp), if_pos hp]
    · have : (a.length == b.length && a.all fun s =>
          (matchLoop b (fun s => a.count s) 0).1 s == 0) = false := by
        rcases Bool.eq_false_or_eq_true (a.length == b.length &&
            a.all fun s => (matchLoop b (fun s => a.count s) 0).1 s == 0) with h | h
        · exact absurd (hexact.mp h) hp
        · exact h
      rw [this, if_neg hp]
      simp only [Bool.false_eq_true, if_false]
      by_cases hc : ∃ s ∈ a, s ∈ b
      · rw [if_pos (hov.mpr hc), if_pos hc]
      · rw [if_neg (fun h => hc (hov.mp h)), if_neg hc]

/-! ## Scan lemmas -/

/-- On an entry with a `value` map, one scan step is the dedup-insert
into the deletion list under `qualifiesDelete`, followed by the
reuse-candidate overwrite under `isExactMatch`. -/
theorem scanCert_eq_some (note : String) (domain : List String) (st : ScanState)
    (v : RemoteValue) :
    scanCert note domain st ⟨some v⟩ =
      (let st1 :=
        if qualifiesDelete note domain ⟨some v⟩ then
          if st.deleteList.contains (objId ⟨some v⟩) then st
          else { st with deleteList := st.deleteList ++ [objId ⟨some v⟩] }
        else st
      if isExactMatch note domain ⟨some v⟩ then { st1 with certKey := objId ⟨some v⟩ }
      else st1) := rfl

theorem scanCert_deleteList_mem (note : String) (domain : List String) (st : ScanState)
    (c : RemoteCert) (x : String) :
    x ∈ (scanCert note domain st c).deleteList ↔
      x ∈ st.deleteList ∨ (qualifiesDelete note domain c = true ∧ objId c = x) := by
  rcases c with ⟨v⟩
  cases v with
  | none => simp [scanCert, qualifiesDelete, objId]
  | some v =>
    rw [scanCert_eq_some]
    by_cases he : isExactMatch note domain ⟨some v⟩ <;>
      by_cases hq : qualifiesDelete note domain ⟨some v⟩ <;>
        by_cases hm : objId ⟨some v⟩ ∈ st.deleteList <;>
          simp [he, hq, hm, List.mem_append, eq_comm] <;> aesop

theorem scanCert_certKey (note : String) (domain : List String) (st : ScanState)
    (c : RemoteCert) :
    (scanCert note domain st c).certKey =
      if isExactMatch note domain c then objId c else st.certKey := by
  rcases c with ⟨v⟩
  cases v with
  | none => simp [scanCert, isExactMatch, relationOf]
  | some v =>
    rw [scanCert_eq_some]
    by_cases he : isExactMatch note domain ⟨some v⟩ <;>
      by_cases hq : qualifiesDelete note domain ⟨some v⟩ <;>
        by_cases hm : objId ⟨some v⟩ ∈ st.deleteList <;>
          simp [he, hq, hm]

theorem scanCert_nodup (note : String) (domain : List String) (st : ScanState)
    (c : RemoteCert) (h : st.deleteList.Nodup) :
    (scanCert note domain st c).deleteList.Nodup := by
  rcases c with ⟨v⟩
  cases v with
  | none => simpa [scanCert] using h
  | some v =>
    rw [scanCert_eq_some]
    by_cases he : isExactMatch note domain ⟨some v⟩ <;>
      by_cases hq : qualifiesDelete note domain ⟨some v⟩ <;>
        by_cases hm : objId ⟨some v⟩ ∈ st.deleteList <;>
          simp [he, hq, hm, List.nodup_append, h]

theorem scanLoop_deleteList_mem (note : String) (domain : List String) (L : List RemoteCert) :
    ∀ (st : ScanState) (x : String),
    x ∈ (scanLoop note domain st L).deleteList ↔
      x ∈ st.deleteList ∨ ∃ c ∈ L, qualifiesDelete note domain c = true ∧ objId c = x := by
  induction L with
  | nil => intro st x; simp [scanLoop]
  | cons c rest ih =>
    intro st x
    simp only [scanLoop]
    rw [ih, scanCert_deleteList_mem]
    simp only [List.exists_mem_cons_iff]
    tauto

theorem scanLoop_nodup (note : String) (domain : List String) (L : List RemoteCert) :
    ∀ (st : ScanState), st.deleteList.Nodup → (scanLoop note domain st L).deleteList.Nodup := by
  induction L with
  | nil => intro st h; simpa [scanLoop] using h
  | cons c rest ih =>
    intro st h
    exact ih _ (scanCert_nodup note domain st c h)

theorem scanLoop_certKey (note : String) (domain : List String) (L : List RemoteCert) :
    ∀ (st : ScanState),
    (scanLoop note domain st L).certKey =
      match L.reverse.find? (isExactMatch note domain) with
      | some c => objId c
      | none => st.certKey := by
  induction L with
  | nil => intro st; simp [scanLoop]
  | cons c rest ih =>
    intro st
    simp only [scanLoop, List.reverse_cons, List.find?_append]
    rw [ih]
    cases hfind : rest.reverse.find? (isExactMatch note domain) with
    | some c' => simp [hfind]
    | none =>
      by_cases hp : isExactMatch note domain c <;>
        simp [hfind, hp, List.find?, scanCert_certKey, Option.or]

/-- The boolean deletion condition, in propositional form. -/
theorem qualifiesDelete_iff (note : String) (domain : List String) (c : RemoteCert) :
    qualifiesDelete note domain c = true ↔
      objId c ≠ "" ∧ ((objDesc c = note ∧ relationOf c domain ≠ 2) ∨
        (relationOf c domain = 1 ∧ objDesc c ≠ note)) := by
  simp [qualifiesDelete]

/-- A `snis` array containing a non-string element fails extraction. -/
theorem extractSnisElems_eq_none {l : List SnisElem} (h : SnisElem.nonStr ∈ l) :
    extractSnisElems l = none := by
  induction l with
  | nil => simp at h
  | cons e rest ih =>
    cases e with
    | str s =>
      rcases List.mem_cons.mp h with h' | h'
      · exact absurd h'.symm (by simp)
      · simp [extractSnisElems, ih h']
    | nonStr => simp [extractSnisElems]

/-- C1 (amended): the reuse candidate recorded by the scan is the id of
the LAST listed object satisfying `desc == note` and an Exact relation
(empty when no such object exists) — each later exact same-note match
overwrites the previously recorded candidate. -/
theorem C1_reuse_candidate_is_last_exact_match (note : String) (domain : List String)
    (L : List RemoteCert) :
    (scan note domain L).certKey =
      match L.reverse.find? (isExactMatch note domain) with
      | some c => objId c
      | none => "" := by
  rw [scan, scanLoop_certKey]

/-- C1 counterexample: a listing with two objects both satisfying
`desc == note` and an Exact snis relation records the id of the SECOND
one as the reuse candidate — the first exact same-note match is
overwritten by the later one, refuting the claim that the first listed
match wins. -/
theorem C1_first_match_counterexample :
    isExactMatch "allinssl-h" ["a.com"]
        ⟨some ⟨some "allinssl-h", some "id1", some [SnisElem.str "a.com"]⟩⟩ = true ∧
    isExactMatch "allinssl-h" ["a.com"]
        ⟨some ⟨some "allinssl-h", some "id2", some [SnisElem.str "a.com"]⟩⟩ = true ∧
    (scan "allinssl-h" ["a.com"]
        [⟨some ⟨some "allinssl-h", some "id1", some [SnisElem.str "a.com"]⟩⟩,
         ⟨some ⟨some "allinssl-h", some "id2", some [SnisElem.str "a.com"]⟩⟩]).certKey
      = "id2" ∧
    ("id2" : String) ≠ "id1" := by decide

/-- C3: an id is in the candidate deletion set iff it is the non-empty id
of some listed object with (`desc == note` and relation not Exact) or
(relation Partial and `desc != note`); the set is deduplicated; and an
object whose `snis` field is missing or contains a non-string element
gets relation Disjoint (0) instead of an error. -/
theorem C3_deletion_set (note : String) (domain : List String) (L : List RemoteCert) :
    (∀ x, x ∈ (scan note domain L).deleteList ↔
      ∃ c ∈ L, objId c = x ∧ x ≠ "" ∧
        ((objDesc c = note ∧ relationOf c domain ≠ 2) ∨
          (relationOf c domain = 1 ∧ objDesc c ≠ note))) ∧
    (scan note domain L).deleteList.Nodup ∧
    (∀ v : RemoteValue, (v.snis = none ∨ ∃ l, v.snis = some l ∧ SnisElem.nonStr ∈ l) →
      relationOf ⟨some v⟩ domain = 0) := by
  refine ⟨fun x => ?_, scanLoop_nodup note domain L ⟨[], ""⟩ (by simp), fun v hv => ?_⟩
  · rw [scan, scanLoop_deleteList_mem]
    constructor
    · rintro (h | ⟨c, hc, hq, hid⟩)
      · exact absurd h (List.not_mem_nil x)
      · rw [qualifiesDelete_iff] at hq
        exact ⟨c, hc, hid, hid ▸ hq.1, hq.2⟩
    · rintro ⟨c, hc, hid, hne, hcond⟩
      exact Or.inr ⟨c, hc, (qualifiesDelete_iff note domain c).mpr ⟨hid ▸ hne, hcond⟩, hid⟩
  · rcases hv with h | ⟨l, hl, hmem⟩
    · simp [relationOf, extractSnisList, h]
    · simp [relationOf, extractSnisList, hl, extractSnisElems_eq_none hmem]

/-- Witness for C3: a same-note object with a disjoint snis list has its
id in the deletion set, and an object with a missing `snis` field is
classified Disjoint. -/
theorem C3_deletion_set_witness :
    "old1" ∈ (scan "n" ["a"]
        [⟨some ⟨some "n", some "old1", some [SnisElem.str "b"]⟩⟩]).deleteList ∧
    relationOf ⟨some ⟨some "n", some "old1", none⟩⟩ ["a"] = 0 :=
  ⟨((C3_deletion_set "n" ["a"]
        [⟨some ⟨some "n", some "old1", some [SnisElem.str "b"]⟩⟩]).1 "old1").mpr
      ⟨⟨some ⟨some "n", some "old1", some [SnisElem.str "b"]⟩⟩, by simp, by decide, by decide,
        Or.inl ⟨by decide, by decide⟩⟩,
   (C3_deletion_set "n" ["a"] []).2.2 ⟨some "n", some "old1", none⟩ (Or.inl rfl)⟩

/-- C10: a listed object with `desc == note` and an Exact relation never
has its id added to the candidate deletion set (assuming, as the claim's
notion of object identity does, that no other listed object aliases its
id unless that alias is itself an exact same-note match); in particular
the reuse candidate is never scheduled for deletion by the same pass. -/
theorem C10_exact_match_never_scheduled (note : String) (domain : List String)
    (L : List RemoteCert) (c : RemoteCert) (hc : c ∈ L) (hdesc : objDesc c = note)
    (hrel : relationOf c domain = 2)
    (hid : ∀ c' ∈ L, objId c' = objId c → objDesc c' = note ∧ relationOf c' domain = 2) :
    objId c ∉ (scan note domain L).deleteList := by
  intro hmem
  rw [scan, scanLoop_deleteList_mem] at hmem
  rcases hmem with h | ⟨c', hc', hq, hide⟩
  · exact absurd h (List.not_mem_nil _)
  · rcases hid c' hc' hide with ⟨hdesc', hrel'⟩
    rw [qualifiesDelete_iff] at hq
    rcases hq.2 with ⟨-, hne⟩ | ⟨h1, -⟩
    · exact hne hrel'
    · rw [hrel'] at h1
      exact absurd h1 (by omega)

/-- Witness for C10: a store holding exactly one object, an exact
same-note match with id `"x"`, never schedules `"x"` for deletion. -/
theorem C10_exact_match_never_scheduled_witness :
    objId ⟨some ⟨some "n", some "x", some [SnisElem.str "a"]⟩⟩ ∉
      (scan "n" ["a"] [⟨some ⟨some "n", some "x", some [SnisElem.str "a"]⟩⟩]).deleteList :=
  C10_exact_match_never_scheduled "n" ["a"] _ _ (by simp) (by decide) (by decide)
    (by decide)

/-- C4: `compareSliceRelation` implements the three-way relation over
string multisets: it returns Disjoint (0) whenever either input list is
empty; for non-empty inputs it returns Exact (2) iff the two lists are
equal as multisets (permutations of each other, multiplicity-aware and
order-independent); and it returns Partial (1) iff the lists share at
least one element (which is exactly when the greedy multiplicity-aware
matching matches at least one element) but are not multiset-equal. -/
theorem C4_classifier_semantics :
    (∀ a b : List String, a = [] ∨ b = [] → compareSliceRelation a b = 0) ∧
    (∀ a b : List String, a ≠ [] → b ≠ [] →
      (compareSliceRelation a b = 2 ↔ a.Perm b)) ∧
    (∀ a b : List String,
      compareSliceRelation a b = 1 ↔ ((∃ s ∈ a, s ∈ b) ∧ ¬ a.Perm b)) := by
  refine ⟨fun a b h => ?_, fun a b ha hb => ?_, fun a b => ?_⟩
  · rw [compareSliceRelation_eq, if_pos h]
  · rw [compareSliceRelation_eq, if_neg (by
      rintro (h | h)
      · exact ha h
      · exact hb h)]
    by_cases hp : a.Perm b
    · simp [hp]
    · simp only [if_neg hp]
      constructor
      · intro h
        by_cases hc : ∃ s ∈ a, s ∈ b <;> simp [hc] at h
      · intro h
        exact absurd h hp
  · rw [compareSliceRelation_eq]
    by_cases hemp : a = [] ∨ b = []
    · rw [if_pos hemp]
      constructor
      · intro h; exact absurd h (by omega)
      · rintro ⟨⟨s, hsa, hsb⟩, _⟩
        rcases hemp with h | h
        · subst h; exact absurd hsa (List.not_mem_nil s)
        · subst h; exact absurd hsb (List.not_mem_nil s)
    · rw [if_neg hemp]
      by_cases hp : a.Perm b
      · rw [if_pos hp]
        constructor
        · intro h; exact absurd h (by omega)
        · rintro ⟨_, hnp⟩; exact absurd hp hnp
      · rw [if_neg hp]
        by_cases hc : ∃ s ∈ a, s ∈ b
        · rw [if_pos hc]
          exact ⟨fun _ => ⟨hc, hp⟩, fun _ => rfl⟩
        · rw [if_neg hc]
          constructor
          · intro h; exact absurd h (by omega)
          · rintro ⟨hc', _⟩; exact absurd hc' hc

/-- Witness for C4 at concrete inputs: an empty side is Disjoint,
`["a","b"]` vs `["b","a"]` is Exact, and `["a","a"]` vs `["a"]` is
Partial (multiplicity-aware, not Exact). -/
theorem C4_classifier_semantics_witness :
    compareSliceRelation ["a"] [] = 0 ∧
    compareSliceRelation ["a", "b"] ["b", "a"] = 2 ∧
    compareSliceRelation ["a", "a"] ["a"] = 1 :=
  ⟨C4_classifier_semantics.1 ["a"] [] (Or.inr rfl),
   (C4_classifier_semantics.2.1 ["a", "b"] ["b", "a"] (by decide) (by decide)).mpr
     (by decide),
   (C4_classifier_semantics.2.2 ["a", "a"] ["a"]).mpr (by decide)⟩

/-- C5: classification is symmetric — for every pair of string lists,
`compareSliceRelation a b = compareSliceRelation b a`. -/
theorem C5_classifier_symmetric (a b : List String) :
    compareSliceRelation a b = compareSliceRelation b a := by
  rw [compareSliceRelation_eq, compareSliceRelation_eq]
  by_cases hemp : a = [] ∨ b = []
  · have hemp' : b = [] ∨ a = [] := hemp.symm
    rw [if_pos hemp, if_pos hemp']
  · have hemp' : ¬(b = [] ∨ a = []) := fun h => hemp h.symm
    rw [if_neg hemp, if_neg hemp']
    by_cases hp : a.Perm b
    · have hp' : b.Perm a := hp.symm
      rw [if_pos hp, if_pos hp']
    · have hp' : ¬ b.Perm a := fun h => hp h.symm
      rw [if_neg hp, if_neg hp']
      by_cases hc : ∃ s ∈ a, s ∈ b
      · obtain ⟨s, hsa, hsb⟩ := hc
        have h1 : ∃ s ∈ a, s ∈ b := ⟨s, hsa, hsb⟩
        have h2 : ∃ s ∈ b, s ∈ a := ⟨s, hsb, hsa⟩
        rw [if_pos h1, if_pos h2]
      · have hc' : ¬∃ s ∈ b, s ∈ a := by
          intro h
          obtain ⟨s, hsb, hsa⟩ := h
          exact hc ⟨s, hsa, hsb⟩
        rw [if_neg hc, if_neg hc']

/-! ## `Upload_bind` lemmas -/

theorem reqString_eq_some {cfg : List (String × PVal)} {k s : String} :
    reqString cfg k = some s ↔ lookupParam cfg k = some (PVal.str s) ∧ s ≠ "" := by
  unfold reqString
  cases h : lookupParam cfg k with
  | none => simp
  | some pv =>
    cases pv with
    | str t =>
      show (if t = "" then none else some t) = some s ↔
        some (PVal.str t) = some (PVal.str s) ∧ s ≠ ""
      by_cases ht : t = ""
      · subst ht
        rw [if_pos rfl]
        constructor
        · intro h'; exact absurd h' (by simp)
        · rintro ⟨h', hne⟩
          rw [Option.some.injEq, PVal.str.injEq] at h'
          exact absurd h'.symm hne
      · rw [if_neg ht]
        simp only [Option.some.injEq, PVal.str.injEq]
        constructor
        · rintro rfl
          exact ⟨rfl, ht⟩
        · rintro ⟨rfl, -⟩
          rfl
    | list l => simp
    | other => simp

theorem asStringList_forall {l : List PVal} {d : List String}
    (h : asStringList l = some d) : ∀ v ∈ l, ∃ s, v = PVal.str s := by
  induction l generalizing d with
  | nil => simp
  | cons v rest ih =>
    cases v with
    | str s =>
      simp only [asStringList, Option.map_eq_some'] at h
      obtain ⟨d', hd', -⟩ := h
      intro w hw
      rcases List.mem_cons.mp hw with rfl | hw'
      · exact ⟨s, rfl⟩
      · exact ih hd' w hw'
    | list _ => exact absurd h (by simp [asStringList])
    | other => exact absurd h (by simp [asStringList])

/-- When the parameter bundle passes every validation step, `Upload_bind`
is the reconciliation core on the extracted cert string and domain list. -/
theorem Upload_bind_good (g : Gateway) (cfg : List (String × PVal))
    (certStr keyStr adminKey serverAddress : String) (domains : List PVal)
    (domain : List String)
    (h1 : lookupParam cfg "cert" = some (PVal.str certStr)) (h1' : certStr ≠ "")
    (h2 : lookupParam cfg "key" = some (PVal.str keyStr)) (h2' : keyStr ≠ "")
    (h3 : lookupParam cfg "admin_key" = some (PVal.str adminKey)) (h3' : adminKey ≠ "")
    (h4 : lookupParam cfg "server_address" = some (PVal.str serverAddress))
    (h4' : serverAddress ≠ "")
    (h5 : lookupParam cfg "domain" = some (PVal.list domains)) (h5' : domains ≠ [])
    (h6 : asStringList domains = some domain) :
    Upload_bind g (some cfg) = reconcileCore g certStr domain := by
  have e1 : reqString cfg "cert" = some certStr := reqString_eq_some.mpr ⟨h1, h1'⟩
  have e2 : reqString cfg "key" = some keyStr := reqString_eq_some.mpr ⟨h2, h2'⟩
  have e3 : reqString cfg "admin_key" = some adminKey := reqString_eq_some.mpr ⟨h3, h3'⟩
  have e4 : reqString cfg "server_address" = some serverAddress :=
    reqString_eq_some.mpr ⟨h4, h4'⟩
  have e5 : ¬ domains.length = 0 := by
    simp [List.length_eq_zero, h5']
  simp [Upload_bind, e1, e2, e3, e4, h5, e5, h6]

/-- The deletion loop on a list whose first failing id is `fid`: the
successful prefix is deleted in order, the failure triggers exactly one
rollback call on the created key, the remaining candidates are not
attempted — and, because of the `err` shadowing at source line 140, the
returned error wraps the ROLLBACK call's outcome (its error message when
it fails, Go's rendering `%!w(<nil>)` of a wrapped nil when it succeeds),
never the original failure `e`. -/
theorem deleteLoop_first_failure (g : Gateway) (ck fid e : String)
    (rest : List String) :
    ∀ (pre : List String) (effs : List Effect),
    (∀ k ∈ pre, ∃ b, g.deleteResult k = Except.ok b) →
    g.deleteResult fid = Except.error e →
    deleteLoop g ck (pre ++ fid :: rest) effs =
      (Except.error
        (match g.deleteResult ck with
         | Except.ok _ => "failed to delete old cert " ++ fid ++ ": %!w(<nil>)"
         | Except.error e2 => "failed to delete old cert " ++ fid ++ ": " ++ e2),
       (effs ++ pre.map Effect.delete) ++ [Effect.delete fid, Effect.delete ck]) := by
  intro pre
  induction pre with
  | nil =>
    intro effs _ hfail
    cases hck : g.deleteResult ck <;> simp [deleteLoop, hfail, hck]
  | cons k pre' ih =>
    intro effs hpre hfail
    obtain ⟨b, hb⟩ := hpre k (List.mem_cons_self k pre')
    have hrest : ∀ k' ∈ pre', ∃ b, g.deleteResult k' = Except.ok b :=
      fun k' hk' => hpre k' (List.mem_cons_of_mem k hk')
    simp only [List.cons_append, deleteLoop, hb, List.append_eq]
    rw [ih (effs ++ [Effect.delete k]) hrest hfail]
    simp

/-- C2 (code bug): the claim — and the source's own log messages — intend
the returned error to wrap the original deletion failure with the
rollback outcome only logged, but the rollback call at source line 140
re-declares `err` with `:=`, shadowing the original failure, so the
`return` wraps the rollback call's result instead.  Evaluated at the
failing input: candidates `old1` (delete ok) and `old2` (delete fails
with `boom`), created key `new`.  When the rollback of `new` also fails
(`rollback-fail`), the rollback error masks the original one; when the
rollback succeeds, the wrapped error is nil and the original message is
lost (`%!w(<nil>)`).  In both runs the error the claim requires —
referencing the original failure `boom` — is not what is returned. -/
theorem C2_rollback_error_masks_original :
    Upload_bind gatewayCleanupFail (some goodCfg) =
      (Except.error "failed to delete old cert old2: rollback-fail",
       [Effect.list, Effect.create, Effect.delete "old1", Effect.delete "old2",
        Effect.delete "new"]) ∧
    Upload_bind gatewayRollbackOk (some goodCfg) =
      (Except.error "failed to delete old cert old2: %!w(<nil>)",
       [Effect.list, Effect.create, Effect.delete "old2", Effect.delete "new"]) ∧
    ("failed to delete old cert old2: rollback-fail" : String) ≠
      "failed to delete old cert old2: boom" ∧
    ("failed to delete old cert old2: %!w(<nil>)" : String) ≠
      "failed to delete old cert old2: boom" :=
  ⟨by rfl, by rfl, by decide, by decide⟩

/-- C6 counterexample: the listing of `gatewayReuse` contains an object
with `desc == note`, an Exact snis relation and the non-empty id `"x"`
(a reuse candidate in the claim's sense), yet `Upload_bind` performs a
Create call and answers with the upload-branch message: the later exact
same-note match with a missing id overwrote the recorded candidate with
`""`, forcing the upload branch. -/
theorem C6_counterexample :
    isExactMatch "allinssl-h" ["a.com"] (exactObj (some "x")) = true ∧
    objId (exactObj (some "x")) = "x" ∧
    gatewayReuse.listResult = Except.ok [exactObj (some "x"), exactObj none] ∧
    Upload_bind gatewayReuse (some goodCfg) =
      (Except.ok ⟨"success", "Certificate uploaded and bound successfully", "绑定成功"⟩,
       [Effect.list, Effect.create]) ∧
    Effect.create ∈ (Upload_bind gatewayReuse (some goodCfg)).2 :=
  ⟨by decide, rfl, rfl, by rfl, by decide⟩

/-- C6 (amended): whenever the reuse candidate recorded by the scan — the
LAST listed object with `desc == note` and an Exact snis relation — has a
non-empty id, `Upload_bind` performs no Create and no Delete call (its
only remote call is the listing, so the store is left unchanged and the
computed deletion set is discarded) and returns success with the
already-bound message. -/
theorem C6_reuse_candidate_skips_mutation (g : Gateway) (cfg : List (String × PVal))
    (certStr keyStr adminKey serverAddress : String) (domains : List PVal)
    (domain : List String) (fp : String) (L : List RemoteCert) (cm : RemoteCert)
    (h1 : lookupParam cfg "cert" = some (PVal.str certStr)) (h1' : certStr ≠ "")
    (h2 : lookupParam cfg "key" = some (PVal.str keyStr)) (h2' : keyStr ≠ "")
    (h3 : lookupParam cfg "admin_key" = some (PVal.str adminKey)) (h3' : adminKey ≠ "")
    (h4 : lookupParam cfg "server_address" = some (PVal.str serverAddress))
    (h4' : serverAddress ≠ "")
    (h5 : lookupParam cfg "domain" = some (PVal.list domains)) (h5' : domains ≠ [])
    (h6 : asStringList domains = some domain)
    (hsha : g.sha certStr = Except.ok fp)
    (hlist : g.listResult = Except.ok L)
    (hfind : L.reverse.find? (isExactMatch ("allinssl-" ++ fp) domain) = some cm)
    (hcid : objId cm ≠ "") :
    Upload_bind g (some cfg) =
      (Except.ok ⟨"success", "Certificate uploaded and bound successfully", "已存在绑定"⟩,
       [Effect.list]) := by
  rw [Upload_bind_good g cfg certStr keyStr adminKey serverAddress domains domain
    h1 h1' h2 h2' h3 h3' h4 h4' h5 h5' h6]
  have hck : (scan ("allinssl-" ++ fp) domain L).certKey = objId cm := by
    rw [scan, scanLoop_certKey, hfind]
  simp only [reconcileCore, hsha, hlist, hck, if_neg hcid]

/-- Witness for C6 (amended): with `gatewayReuseOk` (one listed exact
match, id `"x"`) the call answers already-bound after the listing only. -/
theorem C6_reuse_candidate_skips_mutation_witness :
    Upload_bind gatewayReuseOk (some goodCfg) =
      (Except.ok ⟨"success", "Certificate uploaded and bound successfully", "已存在绑定"⟩,
       [Effect.list]) :=
  C6_reuse_candidate_skips_mutation gatewayReuseOk goodCfg "C" "K" "A" "S"
    [PVal.str "a.com"] ["a.com"] "h" [exactObj (some "x")] (exactObj (some "x"))
    rfl (by decide) rfl (by decide) rfl (by decide) rfl (by decide) rfl (by simp) rfl
    rfl rfl rfl (by decide)

/-- C8: a parameter bundle violating the caller contract — any of `cert`,
`key`, `admin_key`, `server_address` missing, empty or not a string, or
`domain` missing, not a list, empty, or containing a non-string element —
makes `Upload_bind` return an error having performed no remote call. -/
theorem C8_bad_params_no_network (g : Gateway) (cfg? : Option (List (String × PVal)))
    (hbad : ¬ goodParams cfg?) :
    (∃ e, (Upload_bind g cfg?).1 = Except.error e) ∧ (Upload_bind g cfg?).2 = [] := by
  cases cfg? with
  | none => exact ⟨⟨"config cannot be nil", rfl⟩, rfl⟩
  | some cfg =>
    cases h1 : reqString cfg "cert" with
    | none =>
      have h : Upload_bind g (some cfg) =
          (Except.error "cert is required and must be a string", []) := by
        simp [Upload_bind, h1]
      rw [h]; exact ⟨⟨_, rfl⟩, rfl⟩
    | some certStr =>
      cases h2 : reqString cfg "key" with
      | none =>
        have h : Upload_bind g (some cfg) =
            (Except.error "key is required and must be a string", []) := by
          simp [Upload_bind, h1, h2]
        rw [h]; exact ⟨⟨_, rfl⟩, rfl⟩
      | some keyStr =>
        cases h3 : reqString cfg "admin_key" with
        | none =>
          have h : Upload_bind g (some cfg) =
              (Except.error "admin_key is required and must be a string", []) := by
            simp [Upload_bind, h1, h2, h3]
          rw [h]; exact ⟨⟨_, rfl⟩, rfl⟩
        | some adminKey =>
          cases h4 : reqString cfg "server_address" with
          | none =>
            have h : Upload_bind g (some cfg) =
                (Except.error "server_address is required and must be a string", []) := by
              simp [Upload_bind, h1, h2, h3, h4]
            rw [h]; exact ⟨⟨_, rfl⟩, rfl⟩
          | some serverAddress =>
            cases h5 : lookupParam cfg "domain" with
            | none =>
              have h : Upload_bind g (some cfg) =
                  (Except.error "domain is required and must be a list", []) := by
                simp [Upload_bind, h1, h2, h3, h4, h5]
              rw [h]; exact ⟨⟨_, rfl⟩, rfl⟩
            | some pv =>
              cases pv with
              | str s =>
                have h : Upload_bind g (some cfg) =
                    (Except.error "domain is required and must be a list", []) := by
                  simp [Upload_bind, h1, h2, h3, h4, h5]
                rw [h]; exact ⟨⟨_, rfl⟩, rfl⟩
              | other =>
                have h : Upload_bind g (some cfg) =
                    (Except.error "domain is required and must be a list", []) := by
                  simp [Upload_bind, h1, h2, h3, h4, h5]
                rw [h]; exact ⟨⟨_, rfl⟩, rfl⟩
              | list ds =>
                by_cases h5' : ds.length = 0
                · have h : Upload_bind g (some cfg) =
                      (Except.error "domain is required and must be a list", []) := by
                    simp [Upload_bind, h1, h2, h3, h4, h5, h5']
                  rw [h]; exact ⟨⟨_, rfl⟩, rfl⟩
                · cases h6 : asStringList ds with
                  | none =>
                    have h : Upload_bind g (some cfg) =
                        (Except.error "element is not a string", []) := by
                      simp [Upload_bind, h1, h2, h3, h4, h5, h5', h6]
                    rw [h]; exact ⟨⟨_, rfl⟩, rfl⟩
                  | some dom =>
                    exfalso
                    apply hbad
                    obtain ⟨g1, g1'⟩ := reqString_eq_some.mp h1
                    obtain ⟨g2, g2'⟩ := reqString_eq_some.mp h2
                    obtain ⟨g3, g3'⟩ := reqString_eq_some.mp h3
                    obtain ⟨g4, g4'⟩ := reqString_eq_some.mp h4
                    exact ⟨⟨certStr, g1, g1'⟩, ⟨keyStr, g2, g2'⟩, ⟨adminKey, g3, g3'⟩,
                      ⟨serverAddress, g4, g4'⟩,
                      ⟨ds, h5, fun hnil => h5' (by simp [hnil]), asStringList_forall h6⟩⟩

/-- Witness for C8: the nil bundle is rejected with no remote call. -/
theorem C8_bad_params_no_network_witness :
    ¬ goodParams none ∧
    (∃ e, (Upload_bind gatewayReuseOk none).1 = Except.error e) ∧
    (Upload_bind gatewayReuseOk none).2 = [] :=
  ⟨fun h => h, (C8_bad_params_no_network gatewayReuseOk none (fun h => h)).1,
   (C8_bad_params_no_network gatewayReuseOk none (fun h => h)).2⟩

/-! ## Fingerprinting and deletion-confirmation lemmas -/

/-- Every hex digit produced for a nibble is a lowercase hex character. -/
theorem hexDigit_mem_lower (n : Nat) (h : n < 16) : hexDigit n ∈ lowerHexChars := by
  interval_cases n <;> decide

/-- C7: `GetSHA256` fails when the input has no valid PEM block or the
block does not parse as an X.509 certificate; otherwise it returns the
hex encoding of the SHA-256 digest of the certificate's raw DER bytes
(not of the PEM text); that encoding uses only lowercase hex characters;
and certificates with identical raw DER bytes always receive the
identical fingerprint. -/
theorem C7_fingerprint (pemDecode : String → Option PemBlock)
    (parseCertificate : List Nat → Except String X509Cert)
    (sha256Sum : List Nat → List Nat) :
    (∀ s, pemDecode s = none →
      ∃ e, GetSHA256 pemDecode parseCertificate sha256Sum s = Except.error e) ∧
    (∀ s block e, pemDecode s = some block →
      parseCertificate block.bytes = Except.error e →
      ∃ e', GetSHA256 pemDecode parseCertificate sha256Sum s = Except.error e') ∧
    (∀ s block cert, pemDecode s = some block →
      parseCertificate block.bytes = Except.ok cert →
      GetSHA256 pemDecode parseCertificate sha256Sum s =
        Except.ok (hexEncode (sha256Sum cert.raw))) ∧
    (∀ bs, ∀ c ∈ (hexEncode bs).data, c ∈ lowerHexChars) ∧
    (∀ s₁ s₂ b₁ b₂ c₁ c₂, pemDecode s₁ = some b₁ → pemDecode s₂ = some b₂ →
      parseCertificate b₁.bytes = Except.ok c₁ →
      parseCertificate b₂.bytes = Except.ok c₂ → c₁.raw = c₂.raw →
      GetSHA256 pemDecode parseCertificate sha256Sum s₁ =
        GetSHA256 pemDecode parseCertificate sha256Sum s₂) := by
  refine ⟨fun s hs => ?_, fun s block e hs hp => ?_, fun s block cert hs hp => ?_,
    fun bs c hc => ?_, fun s₁ s₂ b₁ b₂ c₁ c₂ hs₁ hs₂ hp₁ hp₂ hraw => ?_⟩
  · exact ⟨"无法解析证书 PEM", by simp [GetSHA256, hs]⟩
  · exact ⟨"解析证书失败: " ++ e, by simp [GetSHA256, hs, hp]⟩
  · simp [GetSHA256, hs, hp]
  · simp only [hexEncode, String.data] at hc
    rw [List.mem_flatten] at hc
    obtain ⟨l, hl, hcl⟩ := hc
    rw [List.mem_map] at hl
    obtain ⟨b, -, rfl⟩ := hl
    simp only [hexEncodeByte, List.mem_cons, List.not_mem_nil, or_false] at hcl
    rcases hcl with h | h
    · exact h ▸ hexDigit_mem_lower _ (Nat.mod_lt _ (by omega))
    · exact h ▸ hexDigit_mem_lower _ (Nat.mod_lt _ (by omega))
  · simp [GetSHA256, hs₁, hs₂, hp₁, hp₂, hraw]

/-- Witness for C7: with concrete library models, a decodable input maps
to the lowercase hex of the digest (`[171, 0] ↦ "ab00"`), and an input
with no PEM block fails. -/
theorem C7_fingerprint_witness :
    GetSHA256 (fun s => if s = "" then none else some ⟨[0]⟩)
        (fun bs => Except.ok ⟨bs⟩) (fun _ => [171, 0]) "x" = Except.ok "ab00" ∧
    (∃ e, GetSHA256 (fun s => if s = "" then none else some ⟨[0]⟩)
        (fun bs => Except.ok ⟨bs⟩) (fun _ => [171, 0]) "" = Except.error e) :=
  ⟨((C7_fingerprint (fun s => if s = "" then none else some ⟨[0]⟩)
        (fun bs => Except.ok ⟨bs⟩) (fun _ => [171, 0])).2.2.1 "x" ⟨[0]⟩ ⟨[0]⟩
      (by decide) rfl).trans (by rfl),
   (C7_fingerprint (fun s => if s = "" then none else some ⟨[0]⟩)
        (fun bs => Except.ok ⟨bs⟩) (fun _ => [171, 0])).1 "" (by decide)⟩

/-- C9: `DeleteCertFromApisix` succeeds iff the transport succeeded, the
response has a string `deleted` field, a string `key` field, and the last
path segment of `key` equals the requested id; and success is the only
non-error outcome.  Transport failure, a missing or non-string `deleted`
or `key`, or a path-segment mismatch all yield errors. -/
theorem C9_delete_confirmation (t : Except String DeleteResp) (certKey : String) :
    (DeleteCertFromApisix t certKey = Except.ok true ↔
      ∃ res, t = Except.ok res ∧ (∃ s, res.deleted = some (JField.jstr s)) ∧
        (∃ k, res.key = some (JField.jstr k) ∧ pathBase k = certKey)) ∧
    (∀ b, DeleteCertFromApisix t certKey = Except.ok b → b = true) := by
  cases t with
  | error e =>
    constructor
    · simp [DeleteCertFromApisix]
    · intro b hb
      exact absurd hb (by simp [DeleteCertFromApisix])
  | ok res =>
    rcases res with ⟨deleted, key⟩
    constructor
    · cases deleted with
      | none => simp [DeleteCertFromApisix]
      | some fd =>
        cases fd with
        | jother => simp [DeleteCertFromApisix]
        | jstr s =>
          cases key with
          | none => simp [DeleteCertFromApisix]
          | some kf =>
            cases kf with
            | jother => simp [DeleteCertFromApisix]
            | jstr k =>
              by_cases hk : pathBase k = certKey <;>
                simp [DeleteCertFromApisix, hk]
    · intro b hb
      cases deleted with
      | none => exact absurd hb (by simp [DeleteCertFromApisix])
      | some fd =>
        cases fd with
        | jother => exact absurd hb (by simp [DeleteCertFromApisix])
        | jstr s =>
          cases key with
          | none => exact absurd hb (by simp [DeleteCertFromApisix])
          | some kf =>
            cases kf with
            | jother => exact absurd hb (by simp [DeleteCertFromApisix])
            | jstr k =>
              by_cases hk : pathBase k = certKey
              · simp [DeleteCertFromApisix, hk] at hb
                exact hb
              · exact absurd hb (by simp [DeleteCertFromApisix, hk])

/-- Witness for C9: a confirmed deletion whose returned key
`"/apisix/ssls/abc"` path-extracts to the requested id `"abc"`. -/
theorem C9_delete_confirmation_witness :
    DeleteCertFromApisix
      (Except.ok ⟨some (JField.jstr "ok"), some (JField.jstr "/apisix/ssls/abc")⟩)
      "abc" = Except.ok true :=
  (C9_delete_confirmation
      (Except.ok ⟨some (JField.jstr "ok"), some (JField.jstr "/apisix/ssls/abc")⟩)
      "abc").1.mpr
    ⟨⟨some (JField.jstr "ok"), some (JField.jstr "/apisix/ssls/abc")⟩, rfl,
     ⟨"ok", rfl⟩, ⟨"/apisix/ssls/abc", rfl, by decide⟩⟩

end Allinssl
